import Mathlib

/-!
Verification of the fractal generation engine of the `Proyecto-Final-GraficaP3`
repository (`fractales_visualizador`).  Each Python function relevant to the
checked claims is shallowly embedded as a Lean definition; machine floats are
modelled by exact rationals (every IEEE float value is a rational, so `ℚ`
covers all machine inputs) and, where the code computes transcendental
functions (`math.log`, `math.sqrt`, `math.sin`), by real numbers.
-/

namespace FractalesVisualizador

/-- A complex number / 2-D point with exact rational coordinates. -/
abbrev Comp := ℚ × ℚ

/-- Complex addition. -/
def cAdd (a b : Comp) : Comp := (a.1 + b.1, a.2 + b.2)

/-- Complex multiplication. -/
def cMul (a b : Comp) : Comp := (a.1 * b.1 - a.2 * b.2, a.1 * b.2 + a.2 * b.1)

/-- Squared modulus.  The Python test `abs(z) <= 2` is encoded as
`normSq z ≤ 4`, which is equivalent in exact arithmetic. -/
def normSq (a : Comp) : ℚ := a.1 * a.1 + a.2 * a.2

/-- The `while abs(z) <= 2 and n < max_iter` loop shared by
`mandelbrot_iteration` and `mandelbrot_smooth` in
`fractals/mandelbrot.py`; `fuel` is the number of loop iterations still
allowed (`max_iter - n`).  Returns the final `z` together with the number
of iterations performed. -/
def mandelbrot_loop (c : Comp) : ℕ → Comp → Comp × ℕ
  | 0, z => (z, 0)
  | fuel + 1, z =>
    if normSq z ≤ 4 then
      let r := mandelbrot_loop c fuel (cAdd (cMul z z) c)
      (r.1, r.2 + 1)
    else (z, 0)

/-- Final state `(z, n)` of the escape loop started from `z = 0`. -/
def mandelbrot_state (c : Comp) (max_iter : ℤ) : Comp × ℕ :=
  mandelbrot_loop c max_iter.toNat (0, 0)

/-- `mandelbrot_iteration(c, max_iter)` from `fractals/mandelbrot.py`
(lines 6-24): the number of iterations before divergence. -/
def mandelbrot_iteration (c : Comp) (max_iter : ℤ) : ℕ :=
  (mandelbrot_state c max_iter).2

/-- `mandelbrot_smooth(c, max_iter)` from `fractals/mandelbrot.py`
(lines 26-42): the smoothed escape value
`n + 1 - log(log(abs(z)))/log(2)` for escaping points, `max_iter`
otherwise. -/
noncomputable def mandelbrot_smooth (c : Comp) (max_iter : ℤ) : ℝ :=
  if ((mandelbrot_state c max_iter).2 : ℤ) < max_iter then
    ((mandelbrot_state c max_iter).2 : ℝ) + 1 -
      Real.log (Real.log (Real.sqrt ((normSq (mandelbrot_state c max_iter).1 : ℝ)))) /
        Real.log 2
  else (max_iter : ℝ)

/-! ### Basic facts about the escape loop -/

theorem mandelbrot_loop_count_le (c : Comp) :
    ∀ (fuel : ℕ) (z : Comp), (mandelbrot_loop c fuel z).2 ≤ fuel := by
  intro fuel
  induction fuel with
  | zero => intro z; simp [mandelbrot_loop]
  | succ f ih =>
    intro z
    simp only [mandelbrot_loop]
    split
    · simpa using ih (cAdd (cMul z z) c)
    · simp

theorem mandelbrot_loop_escape (c : Comp) :
    ∀ (fuel : ℕ) (z : Comp), (mandelbrot_loop c fuel z).2 < fuel →
      4 < normSq (mandelbrot_loop c fuel z).1 := by
  intro fuel
  induction fuel with
  | zero => intro z h; simp [mandelbrot_loop] at h
  | succ f ih =>
    intro z h
    by_cases htest : normSq z ≤ 4
    · simp only [mandelbrot_loop, if_pos htest] at h ⊢
      exact ih (cAdd (cMul z z) c) (by omega)
    · simp only [mandelbrot_loop, if_neg htest]
      exact lt_of_not_ge htest

theorem mandelbrot_loop_pos_of_count (c : Comp) :
    ∀ (fuel : ℕ) (z : Comp), 1 ≤ (mandelbrot_loop c fuel z).2 →
      normSq z ≤ 4 := by
  intro fuel
  induction fuel with
  | zero => intro z h; simp [mandelbrot_loop] at h
  | succ f _ =>
    intro z h
    simp only [mandelbrot_loop] at h
    split at h
    · assumption
    · simp at h

theorem normSq_step_le (z c : Comp) :
    normSq (cAdd (cMul z z) c) ≤ 2 * (normSq z) ^ 2 + 2 * normSq c := by
  rcases z with ⟨x, y⟩; rcases c with ⟨u, v⟩
  simp only [cAdd, cMul, normSq]
  nlinarith [sq_nonneg (x * x - y * y - u), sq_nonneg (x * y + y * x - v),
    sq_nonneg (x * x - y * y + u), sq_nonneg (x * y + y * x + v)]

theorem normSq_nonneg (a : Comp) : 0 ≤ normSq a := by
  rcases a with ⟨x, y⟩
  simp only [normSq]
  nlinarith [sq_nonneg x, sq_nonneg y]

/-- If the seed `c` is still inside the radius-2 disc and the loop starts at
a point inside the disc, an escaping run ends at a point of squared modulus
at most `40`. -/
theorem mandelbrot_loop_escape_le (c : Comp) (hc : normSq c ≤ 4) :
    ∀ (fuel : ℕ) (z : Comp), normSq z ≤ 4 →
      (mandelbrot_loop c fuel z).2 < fuel →
      normSq (mandelbrot_loop c fuel z).1 ≤ 40 := by
  intro fuel
  induction fuel with
  | zero => intro z _ h; simp [mandelbrot_loop] at h
  | succ f ih =>
    intro z hz h
    have hstep : normSq (cAdd (cMul z z) c) ≤ 40 := by
      nlinarith [normSq_step_le z c, normSq_nonneg z]
    simp only [mandelbrot_loop, if_pos hz] at h ⊢
    have h' : (mandelbrot_loop c f (cAdd (cMul z z) c)).2 < f := by omega
    by_cases htest : normSq (cAdd (cMul z z) c) ≤ 4
    · exact ih (cAdd (cMul z z) c) htest h'
    · cases f with
      | zero => omega
      | succ f' =>
        simp only [mandelbrot_loop, if_neg htest]
        exact hstep

theorem mandelbrot_loop_zero_c (fuel : ℕ) :
    mandelbrot_loop (0, 0) fuel (0, 0) = ((0, 0), fuel) := by
  induction fuel with
  | zero => rfl
  | succ f ih =>
    have h0 : cAdd (cMul ((0 : ℚ), (0 : ℚ)) (0, 0)) (0, 0) = ((0 : ℚ), (0 : ℚ)) := by
      simp [cAdd, cMul]
    have hn : normSq ((0 : ℚ), (0 : ℚ)) ≤ 4 := by norm_num [normSq]
    simp only [mandelbrot_loop]
    rw [if_pos hn]
    simp only [h0, ih]

theorem mandelbrot_loop_two_two (f : ℕ) :
    mandelbrot_loop (2, 2) (f + 1) (0, 0) = ((2, 2), 1) := by
  have hr : mandelbrot_loop ((2 : ℚ), (2 : ℚ)) f (2, 2) = ((2, 2), 0) := by
    cases f with
    | zero => rfl
    | succ f' => norm_num [mandelbrot_loop, normSq]
  norm_num [mandelbrot_loop, normSq, cAdd, cMul, hr]

/-- C1: for every integer `max_iter ≥ 1`, `mandelbrot_iteration(0, max_iter)`
returns `max_iter` (the origin never escapes), and for every integer
`max_iter ≥ 5`, `mandelbrot_iteration(2+2i, max_iter)` returns a value
strictly below `max_iter` (the point escapes after one iteration). -/
theorem mandelbrot_iteration_member_nonmember :
    (∀ max_iter : ℤ, 1 ≤ max_iter →
      (mandelbrot_iteration (0, 0) max_iter : ℤ) = max_iter) ∧
    (∀ max_iter : ℤ, 5 ≤ max_iter →
      (mandelbrot_iteration (2, 2) max_iter : ℤ) < max_iter) := by
  constructor
  · intro m hm
    unfold mandelbrot_iteration mandelbrot_state
    rw [mandelbrot_loop_zero_c]
    exact_mod_cast Int.toNat_of_nonneg (by omega)
  · intro m hm
    obtain ⟨k, hk⟩ : ∃ k, m.toNat = k + 1 := ⟨m.toNat - 1, by omega⟩
    unfold mandelbrot_iteration mandelbrot_state
    rw [hk, mandelbrot_loop_two_two]
    simp only
    omega

/-- Witness for C1 at `max_iter = 7` and `max_iter = 6`. -/
theorem mandelbrot_iteration_member_nonmember_witness :
    (1 : ℤ) ≤ 7 ∧ (mandelbrot_iteration (0, 0) 7 : ℤ) = 7 ∧
    (5 : ℤ) ≤ 6 ∧ (mandelbrot_iteration (2, 2) 6 : ℤ) < 6 :=
  ⟨by norm_num, mandelbrot_iteration_member_nonmember.1 7 (by norm_num),
   by norm_num, mandelbrot_iteration_member_nonmember.2 6 (by norm_num)⟩

/-! ### C9: the smoothed escape value and the raw iteration count -/

theorem czero_step (c : Comp) : cAdd (cMul (0, 0) (0, 0)) c = c := by
  simp [cAdd, cMul]

/-- A run that performs at least two iterations checked `abs(c) <= 2` at the
start of its second iteration. -/
theorem mandelbrot_c_le_of_two (c : Comp) (fuel : ℕ)
    (h : 2 ≤ (mandelbrot_loop c fuel (0, 0)).2) : normSq c ≤ 4 := by
  cases fuel with
  | zero => simp [mandelbrot_loop] at h
  | succ f =>
    have hn : normSq ((0 : ℚ), (0 : ℚ)) ≤ 4 := by norm_num [normSq]
    simp only [mandelbrot_loop] at h
    rw [if_pos hn] at h
    simp only [czero_step] at h
    exact mandelbrot_loop_pos_of_count c f c (by omega)

theorem sqrt_normSq_ge_two {v : Comp} (hv : 4 < normSq v) :
    (2 : ℝ) ≤ Real.sqrt ((normSq v : ℝ)) := by
  have hv' : (4 : ℝ) < (normSq v : ℝ) := by exact_mod_cast hv
  have h2 : Real.sqrt 4 = 2 := by
    rw [show (4 : ℝ) = 2 ^ 2 by norm_num, Real.sqrt_sq (by norm_num : (0 : ℝ) ≤ 2)]
  rw [← h2]
  exact Real.sqrt_le_sqrt hv'.le

theorem smooth_log_lower {v : Comp} (hv : 4 < normSq v) :
    Real.log (Real.log 2) ≤ Real.log (Real.log (Real.sqrt ((normSq v : ℝ)))) := by
  have hl : Real.log 2 ≤ Real.log (Real.sqrt ((normSq v : ℝ))) :=
    Real.log_le_log (by norm_num) (sqrt_normSq_ge_two hv)
  exact Real.log_le_log (Real.log_pos (by norm_num)) hl

theorem smooth_log_upper {v : Comp} (hv4 : 4 < normSq v) (hv : normSq v ≤ 40) :
    Real.log (Real.log (Real.sqrt ((normSq v : ℝ)))) ≤ Real.log (Real.log 40 / 2) := by
  have hv' : ((normSq v : ℝ)) ≤ 40 := by exact_mod_cast hv
  have hv4' : (4 : ℝ) < (normSq v : ℝ) := by exact_mod_cast hv4
  have hlog : Real.log (Real.sqrt ((normSq v : ℝ))) = Real.log ((normSq v : ℝ)) / 2 :=
    Real.log_sqrt (by linarith)
  have hup : Real.log ((normSq v : ℝ)) ≤ Real.log 40 :=
    Real.log_le_log (by linarith) hv'
  have hposlog : 0 < Real.log (Real.sqrt ((normSq v : ℝ))) :=
    Real.log_pos (by linarith [sqrt_normSq_ge_two hv4])
  exact Real.log_le_log hposlog (by rw [hlog]; linarith)

theorem smooth_gap_bound :
    Real.log (Real.log 40 / 2) / Real.log 2 - Real.log (Real.log 2) / Real.log 2 ≤ 2 := by
  have h2 : (0 : ℝ) < Real.log 2 := Real.log_pos (by norm_num)
  have h40 : (0 : ℝ) < Real.log 40 := Real.log_pos (by norm_num)
  rw [div_sub_div_same, ← Real.log_div (by positivity) (by positivity)]
  rw [div_le_iff h2]
  have h4 : (2 : ℝ) * Real.log 2 = Real.log 4 := by
    rw [show (4 : ℝ) = 2 ^ 2 by norm_num, Real.log_pow]
    push_cast; ring
  rw [h4]
  apply Real.log_le_log (by positivity)
  have h256 : Real.log 40 ≤ Real.log 256 := Real.log_le_log (by norm_num) (by norm_num)
  have h256' : Real.log 256 = 8 * Real.log 2 := by
    rw [show (256 : ℝ) = 2 ^ 8 by norm_num, Real.log_pow]
    push_cast; ring
  rw [div_div, div_le_iff (by positivity)]
  nlinarith

theorem smooth_tail_bound : 1 - Real.log (Real.log 2) / Real.log 2 ≤ 2 := by
  have h2 : (0 : ℝ) < Real.log 2 := Real.log_pos (by norm_num)
  have hhalf : (1 / 2 : ℝ) < Real.log 2 := by
    have := Real.log_two_gt_d9; linarith
  have hinv2 : (Real.log 2)⁻¹ ≤ 2 := by
    rw [inv_le (by positivity) (by norm_num)]
    linarith
  have hlog : Real.log ((Real.log 2)⁻¹) ≤ Real.log 2 :=
    Real.log_le_log (by positivity) hinv2
  have h : -(Real.log (Real.log 2)) / Real.log 2 ≤ 1 := by
    rw [← Real.log_inv, div_le_one h2]
    exact hlog
  rw [neg_div] at h
  linarith [h]

/-- C9 (amended): for a fixed `max_iter`, the smoothed escape value is
non-decreasing in the raw iteration count once the raw counts differ by at
least `2`: if `mandelbrot_iteration c1 ≤ mandelbrot_iteration c2 - 2` then
`mandelbrot_smooth c1 ≤ mandelbrot_smooth c2`.  (With equal raw counts, or
counts differing by `1`, the smoothed value can decrease; see the
counterexample.) -/
theorem mandelbrot_smooth_monotone_of_gap (c1 c2 : Comp) (max_iter : ℤ)
    (h : mandelbrot_iteration c1 max_iter + 2 ≤ mandelbrot_iteration c2 max_iter) :
    mandelbrot_smooth c1 max_iter ≤ mandelbrot_smooth c2 max_iter := by
  have h2pos : (0 : ℝ) < Real.log 2 := Real.log_pos (by norm_num)
  have hn2le : (mandelbrot_state c2 max_iter).2 ≤ max_iter.toNat :=
    mandelbrot_loop_count_le c2 max_iter.toNat (0, 0)
  have hcount : mandelbrot_iteration c1 max_iter + 2 ≤ mandelbrot_iteration c2 max_iter := h
  unfold mandelbrot_iteration at hcount
  have h1esc : (mandelbrot_state c1 max_iter).2 < max_iter.toNat := by omega
  have h1esc' : ((mandelbrot_state c1 max_iter).2 : ℤ) < max_iter := by omega
  have hv1 : 4 < normSq (mandelbrot_state c1 max_iter).1 :=
    mandelbrot_loop_escape c1 max_iter.toNat (0, 0) h1esc
  have hs1 : mandelbrot_smooth c1 max_iter =
      ((mandelbrot_state c1 max_iter).2 : ℝ) + 1 -
        Real.log (Real.log (Real.sqrt ((normSq (mandelbrot_state c1 max_iter).1 : ℝ)))) /
          Real.log 2 := by
    unfold mandelbrot_smooth
    rw [if_pos h1esc']
  have hub1 : Real.log (Real.log 2) / Real.log 2 ≤
      Real.log (Real.log (Real.sqrt ((normSq (mandelbrot_state c1 max_iter).1 : ℝ)))) /
        Real.log 2 :=
    (div_le_div_right h2pos).mpr (smooth_log_lower hv1)
  by_cases h2esc : (mandelbrot_state c2 max_iter).2 < max_iter.toNat
  · -- both runs escape
    have h2esc' : ((mandelbrot_state c2 max_iter).2 : ℤ) < max_iter := by omega
    have hn2two : 2 ≤ (mandelbrot_state c2 max_iter).2 := by omega
    have hc2 : normSq c2 ≤ 4 := mandelbrot_c_le_of_two c2 max_iter.toNat hn2two
    have hv2a : 4 < normSq (mandelbrot_state c2 max_iter).1 :=
      mandelbrot_loop_escape c2 max_iter.toNat (0, 0) h2esc
    have hv2b : normSq (mandelbrot_state c2 max_iter).1 ≤ 40 :=
      mandelbrot_loop_escape_le c2 hc2 max_iter.toNat (0, 0) (by norm_num [normSq]) h2esc
    have hs2 : mandelbrot_smooth c2 max_iter =
        ((mandelbrot_state c2 max_iter).2 : ℝ) + 1 -
          Real.log (Real.log (Real.sqrt ((normSq (mandelbrot_state c2 max_iter).1 : ℝ)))) /
            Real.log 2 := by
      unfold mandelbrot_smooth
      rw [if_pos h2esc']
    have hub2 :
        Real.log (Real.log (Real.sqrt ((normSq (mandelbrot_state c2 max_iter).1 : ℝ)))) /
          Real.log 2 ≤ Real.log (Real.log 40 / 2) / Real.log 2 :=
      (div_le_div_right h2pos).mpr (smooth_log_upper hv2a hv2b)
    have hcast : ((mandelbrot_state c1 max_iter).2 : ℝ) + 2 ≤
        ((mandelbrot_state c2 max_iter).2 : ℝ) := by exact_mod_cast hcount
    rw [hs1, hs2]
    linarith [smooth_gap_bound]
  · -- c2 never escapes: its smoothed value is max_iter itself
    have h2eq : (mandelbrot_state c2 max_iter).2 = max_iter.toNat := by omega
    have hs2 : mandelbrot_smooth c2 max_iter = (max_iter : ℝ) := by
      unfold mandelbrot_smooth
      rw [if_neg (by omega)]
    have hm1 : ((mandelbrot_state c1 max_iter).2 : ℤ) + 2 ≤ max_iter := by omega
    have hcast : ((mandelbrot_state c1 max_iter).2 : ℝ) + 2 ≤ (max_iter : ℝ) := by
      exact_mod_cast hm1
    rw [hs1, hs2]
    linarith [smooth_tail_bound]

theorem sqrt_normSq_axis (q : ℚ) (hq : 0 ≤ q) :
    Real.sqrt ((normSq (q, 0) : ℝ)) = (q : ℝ) := by
  have h : normSq (q, 0) = q * q := by simp [normSq]
  rw [h]
  push_cast
  rw [show ((q : ℝ) * q) = (q : ℝ) ^ 2 by ring, Real.sqrt_sq (by exact_mod_cast hq)]

theorem mandelbrot_smooth_axis_eval {c : Comp} {m : ℤ} {q : ℚ} {n : ℕ}
    (he : mandelbrot_state c m = ((q, 0), n)) (hn : (n : ℤ) < m) (hq : 0 ≤ q) :
    mandelbrot_smooth c m = (n : ℝ) + 1 - Real.log (Real.log ((q : ℝ))) / Real.log 2 := by
  unfold mandelbrot_smooth
  rw [he]
  simp only
  rw [if_pos hn, sqrt_normSq_axis q hq]

theorem mandelbrot_state_eval_21_10 :
    mandelbrot_state ((21 / 10 : ℚ), 0) 10 = (((21 / 10 : ℚ), (0 : ℚ)), 1) := by
  norm_num [mandelbrot_state, mandelbrot_loop, cAdd, cMul, normSq]

theorem mandelbrot_state_eval_3 :
    mandelbrot_state ((3 : ℚ), 0) 10 = (((3 : ℚ), (0 : ℚ)), 1) := by
  norm_num [mandelbrot_state, mandelbrot_loop, cAdd, cMul, normSq]

theorem mandelbrot_state_eval_2 :
    mandelbrot_state ((2 : ℚ), 0) 10 = (((6 : ℚ), (0 : ℚ)), 2) := by
  norm_num [mandelbrot_state, mandelbrot_loop, cAdd, cMul, normSq]

theorem mandelbrot_state_eval_9_10 :
    mandelbrot_state ((9 / 10 : ℚ), 0) 10 = (((38241 / 10000 : ℚ), (0 : ℚ)), 3) := by
  norm_num [mandelbrot_state, mandelbrot_loop, cAdd, cMul, normSq]

/-- C9 counterexample: the claim "`mandelbrot_smooth` is monotonically
non-decreasing in the raw iteration count" is false at concrete inputs, both
for equal raw counts (`c1 = 2.1`, `c2 = 3`, counts `1` and `1`) and for raw
counts differing by one (`c1 = 2.1`, `c2 = 2`, counts `1` and `2`): the
smoothed value strictly decreases although the raw count does not. -/
theorem mandelbrot_smooth_not_monotone_cex :
    mandelbrot_iteration ((21 / 10 : ℚ), 0) 10 ≤ mandelbrot_iteration ((3 : ℚ), 0) 10 ∧
    mandelbrot_smooth ((3 : ℚ), 0) 10 < mandelbrot_smooth ((21 / 10 : ℚ), 0) 10 ∧
    mandelbrot_iteration ((21 / 10 : ℚ), 0) 10 ≤ mandelbrot_iteration ((2 : ℚ), 0) 10 ∧
    mandelbrot_smooth ((2 : ℚ), 0) 10 < mandelbrot_smooth ((21 / 10 : ℚ), 0) 10 := by
  have h2pos : (0 : ℝ) < Real.log 2 := Real.log_pos (by norm_num)
  have e1 := mandelbrot_state_eval_21_10
  have e2 := mandelbrot_state_eval_3
  have e3 := mandelbrot_state_eval_2
  have s1 := mandelbrot_smooth_axis_eval e1 (by norm_num) (by norm_num)
  have s2 := mandelbrot_smooth_axis_eval e2 (by norm_num) (by norm_num)
  have s3 := mandelbrot_smooth_axis_eval e3 (by norm_num) (by norm_num)
  have hq21 : ((21 / 10 : ℚ) : ℝ) = (21 / 10 : ℝ) := by push_cast; ring
  have hq3 : ((3 : ℚ) : ℝ) = (3 : ℝ) := by push_cast; ring
  have hq6 : ((6 : ℚ) : ℝ) = (6 : ℝ) := by push_cast; ring
  rw [hq21] at s1
  rw [hq3] at s2
  rw [hq6] at s3
  have hl21 : (0 : ℝ) < Real.log (21 / 10) := Real.log_pos (by norm_num)
  refine ⟨?_, ?_, ?_, ?_⟩
  · unfold mandelbrot_iteration
    rw [e1, e2]
  · -- equal raw counts, smaller escape modulus gives larger smoothed value
    have hmono : Real.log (Real.log (21 / 10)) < Real.log (Real.log 3) :=
      Real.log_lt_log hl21 (Real.log_lt_log (by norm_num) (by norm_num))
    have hdiv : Real.log (Real.log (21 / 10)) / Real.log 2 <
        Real.log (Real.log 3) / Real.log 2 := (div_lt_div_right h2pos).mpr hmono
    rw [s1, s2]
    push_cast
    linarith
  · unfold mandelbrot_iteration
    rw [e1, e3]
    omega
  · -- raw count increases by one yet the smoothed value decreases
    have hsq : 2 * Real.log (21 / 10) < Real.log 6 := by
      rw [show (2 : ℝ) * Real.log (21 / 10) = Real.log ((21 / 10 : ℝ) ^ 2) by
        rw [Real.log_pow]; push_cast; ring]
      exact Real.log_lt_log (by positivity) (by norm_num)
    have hgap : Real.log 2 < Real.log (Real.log 6) - Real.log (Real.log (21 / 10)) := by
      rw [← Real.log_div (by positivity) (by positivity)]
      apply Real.log_lt_log (by norm_num)
      rw [lt_div_iff hl21]
      linarith
    have hgap' : 1 < Real.log (Real.log 6) / Real.log 2 -
        Real.log (Real.log (21 / 10)) / Real.log 2 := by
      rw [← sub_div, lt_div_iff h2pos, one_mul]
      exact hgap
    rw [s1, s3]
    push_cast
    linarith

/-- Witness for the amended C9 at `c1 = 2.1` (raw count 1), `c2 = 0.9`
(raw count 3), `max_iter = 10`. -/
theorem mandelbrot_smooth_monotone_of_gap_witness :
    mandelbrot_iteration ((21 / 10 : ℚ), 0) 10 + 2 ≤
      mandelbrot_iteration ((9 / 10 : ℚ), 0) 10 ∧
    mandelbrot_smooth ((21 / 10 : ℚ), 0) 10 ≤ mandelbrot_smooth ((9 / 10 : ℚ), 0) 10 := by
  have h : mandelbrot_iteration ((21 / 10 : ℚ), 0) 10 + 2 ≤
      mandelbrot_iteration ((9 / 10 : ℚ), 0) 10 := by
    unfold mandelbrot_iteration
    rw [mandelbrot_state_eval_21_10, mandelbrot_state_eval_9_10]
  exact ⟨h, mandelbrot_smooth_monotone_of_gap _ _ 10 h⟩

/-! ### Palette and escape-time entry points (`mandelbrot.py`, `julia.py`) -/

/-- Python's `int(...)` conversion: truncation toward zero. -/
noncomputable def rtrunc (x : ℝ) : ℤ := if 0 ≤ x then ⌊x⌋ else ⌈x⌉

/-- Python's `int(...)` on an exact rational. -/
def qtrunc (q : ℚ) : ℤ := if 0 ≤ q then ⌊q⌋ else ⌈q⌉

/-- `get_color_palette(iteration, max_iter, palette_type)` from
`fractals/mandelbrot.py` (lines 44-91).  `int(x)` is `rtrunc`, `//` is
`Int.fdiv` (Python floor division). -/
noncomputable def get_color_palette (iteration max_iter : ℤ)
    (palette_type : String) : ℤ × ℤ × ℤ :=
  if iteration ≥ max_iter then (0, 0, 0)
  else
    let t : ℝ := (iteration : ℝ) / (max_iter : ℝ)
    if palette_type = "fire" then
      if t < 1 / 2 then
        (rtrunc (255 * (2 * t)), rtrunc (255 * (2 * t) ^ 2), 0)
      else
        (255, 255, rtrunc (255 * (2 * t - 1)))
    else if palette_type = "ocean" then
      (rtrunc (t * 100), rtrunc (t * 200), rtrunc (255 * (1 / 2 + 1 / 2 * t)))
    else if palette_type = "psychedelic" then
      (rtrunc (128 + 127 * Real.sin (t * Real.pi * 4)),
       rtrunc (128 + 127 * Real.sin (t * Real.pi * 4 + 2)),
       rtrunc (128 + 127 * Real.sin (t * Real.pi * 4 + 4)))
    else
      let intensity := rtrunc (255 * t)
      (intensity, Int.fdiv intensity 2, 255 - intensity)

/-- `max_iter = max(10, min(iterations, 1000))` in `mandelbrot_optimized`
(`mandelbrot.py` line 105). -/
def mandelbrot_optimized_max_iter (iterations : ℤ) : ℤ := max 10 (min iterations 1000)

/-- `max_iter = max(10, min(iterations, 500))` in `mandelbrot_basic`
(`mandelbrot.py` line 146). -/
def mandelbrot_basic_max_iter (iterations : ℤ) : ℤ := max 10 (min iterations 500)

/-- `max_iter = max(10, min(iterations, 200))` in `mandelbrot_julia_morph`
(`mandelbrot.py` line 182). -/
def mandelbrot_morph_max_iter (iterations : ℤ) : ℤ := max 10 (min iterations 200)

/-- `max_iter = max(10, iterations)` in `julia.draw` (`julia.py` line 3):
there is no upper clamp. -/
def julia_max_iter (iterations : ℤ) : ℤ := max 10 iterations

/-- The Julia constant `cX = -0.7`. -/
def juliaCX : ℚ := -7 / 10

/-- The Julia constant `cY = 0.27015`. -/
def juliaCY : ℚ := 27015 / 100000

/-- The `while zx*zx + zy*zy < 4 and iteration < max_iter` loop of
`julia.draw` (`julia.py` lines 13-16), with
`tmp = zx*zx - zy*zy + cX; zy, zx = 2.0*zx*zy + cY, tmp`. -/
def julia_loop : ℕ → ℚ × ℚ → (ℚ × ℚ) × ℕ
  | 0, z => (z, 0)
  | f + 1, z =>
    if z.1 * z.1 + z.2 * z.2 < 4 then
      let r := julia_loop f (z.1 * z.1 - z.2 * z.2 + juliaCX, 2 * z.1 * z.2 + juliaCY)
      (r.1, r.2 + 1)
    else (z, 0)

/-- Pixel-to-plane mapping of `julia.draw` (`julia.py` lines 9-10):
`zx = 1.5 * (x - width / 2) / (0.5 * width)`,
`zy = (y - height / 2) / (0.5 * height)`. -/
def julia_pixel_z (width height x y : ℕ) : ℚ × ℚ :=
  (3 / 2 * ((x : ℚ) - (width : ℚ) / 2) / (1 / 2 * (width : ℚ)),
   ((y : ℚ) - (height : ℚ) / 2) / (1 / 2 * (height : ℚ)))

/-- Iteration count computed by `julia.draw` for one pixel. -/
def julia_pixel_iter (width height x y : ℕ) (iterations : ℤ) : ℕ :=
  (julia_loop (julia_max_iter iterations).toNat (julia_pixel_z width height x y)).2

/-- Colouring of one pixel in `julia.draw` (`julia.py` lines 18-19):
`color_value = 255 - int(iteration * 255 / max_iter)`,
`color = (color_value, color_value // 2, 255 - color_value)`. -/
def julia_pixel_color (iteration : ℕ) (max_iter : ℤ) : ℤ × ℤ × ℤ :=
  let color_value : ℤ := 255 - qtrunc ((iteration : ℚ) * 255 / (max_iter : ℚ))
  (color_value, Int.fdiv color_value 2, 255 - color_value)

/-- The colour `julia.draw` writes at pixel `(x, y)`. -/
def julia_draw_pixel (width height x y : ℕ) (iterations : ℤ) : ℤ × ℤ × ℤ :=
  julia_pixel_color (julia_pixel_iter width height x y iterations)
    (julia_max_iter iterations)

/-- `np.linspace(a, b, n)` evaluated at index `j` (endpoints included). -/
def linspace (a b : ℚ) (n j : ℕ) : ℚ :=
  if n ≤ 1 then a else a + (b - a) * (j : ℚ) / ((n : ℚ) - 1)

/-- Per-pixel semantics of the vectorised loop of `mandelbrot_optimized`
(`mandelbrot.py` lines 119-127): `M` records the last index `i` at which
the pixel's mask `|Z| <= 2` still held (`0` when it never held), which is
one less than the number of update steps performed. -/
def mandelbrot_optimized_count (c : Comp) (max_iter : ℤ) : ℕ :=
  (mandelbrot_loop c max_iter.toNat (0, 0)).2 - 1

/-- The colour `mandelbrot_optimized` computes for pixel `(x, y)`. -/
noncomputable def mandelbrot_optimized_pixel (width height x y : ℕ) (iterations : ℤ)
    (zoom offset_x offset_y : ℚ) (palette : String) : ℤ × ℤ × ℤ :=
  let max_iter := mandelbrot_optimized_max_iter iterations
  let x_min : ℚ := -5 / 2 / zoom + offset_x
  let x_max : ℚ := 3 / 2 / zoom + offset_x
  let y_min : ℚ := -3 / 2 / zoom + offset_y
  let y_max : ℚ := 3 / 2 / zoom + offset_y
  let re := linspace x_min x_max width x
  let im := linspace y_min y_max height y
  get_color_palette ((mandelbrot_optimized_count (re, im) max_iter : ℤ)) max_iter palette

/-- The colour `mandelbrot_basic` computes for pixel `(x, y)`
(`mandelbrot.py` lines 155-167): `real = x_min + (x_max - x_min) *
x_pixel / width`, iteration by `mandelbrot_iteration`. -/
noncomputable def mandelbrot_basic_pixel (width height x y : ℕ) (iterations : ℤ)
    (zoom offset_x offset_y : ℚ) (palette : String) : ℤ × ℤ × ℤ :=
  let max_iter := mandelbrot_basic_max_iter iterations
  let x_min : ℚ := -5 / 2 / zoom + offset_x
  let x_max : ℚ := 3 / 2 / zoom + offset_x
  let y_min : ℚ := -3 / 2 / zoom + offset_y
  let y_max : ℚ := 3 / 2 / zoom + offset_y
  let re := x_min + (x_max - x_min) * (x : ℚ) / (width : ℚ)
  let im := y_min + (y_max - y_min) * (y : ℚ) / (height : ℚ)
  get_color_palette ((mandelbrot_iteration (re, im) max_iter : ℤ)) max_iter palette

/-- The colour `mandelbrot_julia_morph` computes for pixel `(x, y)`
(`mandelbrot.py` lines 190-213). -/
noncomputable def mandelbrot_morph_pixel (width height x y : ℕ) (iterations : ℤ)
    (morph_factor : ℚ) : ℤ × ℤ × ℤ :=
  let max_iter := mandelbrot_morph_max_iter iterations
  let julia_c : Comp := (-7 / 10 + morph_factor * 4 / 10, 27015 / 100000 * morph_factor)
  let re : ℚ := 3 * ((x : ℚ) - (width : ℚ) / 2) / ((width : ℚ) * (1 / 2))
  let im : ℚ := 2 * ((y : ℚ) - (height : ℚ) / 2) / ((height : ℚ) * (1 / 2))
  let cz : Comp × Comp :=
    if morph_factor < 1 / 2 then ((re, im), (0, 0)) else (julia_c, (re, im))
  let n := (mandelbrot_loop cz.1 max_iter.toNat cz.2).2
  get_color_palette (n : ℤ) max_iter "psychedelic"

/-- The complex coordinate `mandelbrot_basic` maps pixel `(x, y)` to
(`mandelbrot.py` lines 148-160, with the region bounds substituted). -/
def mandelbrot_basic_coord (width height x y : ℕ) (zoom offset_x offset_y : ℚ) : Comp :=
  (-5 / 2 / zoom + offset_x +
     (3 / 2 / zoom + offset_x - (-5 / 2 / zoom + offset_x)) * (x : ℚ) / (width : ℚ),
   -3 / 2 / zoom + offset_y +
     (3 / 2 / zoom + offset_y - (-3 / 2 / zoom + offset_y)) * (y : ℚ) / (height : ℚ))

theorem mandelbrot_basic_pixel_eq (width height x y : ℕ) (iterations : ℤ)
    (zoom offset_x offset_y : ℚ) (palette : String) :
    mandelbrot_basic_pixel width height x y iterations zoom offset_x offset_y palette =
      get_color_palette
        ((mandelbrot_iteration (mandelbrot_basic_coord width height x y zoom offset_x offset_y)
            (mandelbrot_basic_max_iter iterations) : ℤ))
        (mandelbrot_basic_max_iter iterations) palette := rfl

theorem get_color_palette_black (n m : ℤ) (mode : String) (hnm : m ≤ n) :
    get_color_palette n m mode = (0, 0, 0) := by
  unfold get_color_palette
  rw [if_pos hnm]

theorem rtrunc_eq_of_nonneg {x : ℝ} {z : ℤ} (h0 : 0 ≤ x) (h1 : (z : ℝ) ≤ x)
    (h2 : x < z + 1) : rtrunc x = z := by
  unfold rtrunc
  rw [if_pos h0]
  exact Int.floor_eq_iff.mpr ⟨h1, by exact_mod_cast h2⟩

theorem mandelbrot_iteration_zero_ten : mandelbrot_iteration ((0 : ℚ), 0) 10 = 10 := by
  unfold mandelbrot_iteration mandelbrot_state
  rw [show ((10 : ℤ)).toNat = 10 from rfl, mandelbrot_loop_zero_c]

theorem mandelbrot_optimized_count_zero_ten :
    mandelbrot_optimized_count ((0 : ℚ), 0) 10 = 9 := by
  unfold mandelbrot_optimized_count
  rw [show ((10 : ℤ)).toNat = 10 from rfl, mandelbrot_loop_zero_c]
  rfl

theorem ocean_palette_nine_ten : get_color_palette 9 10 "ocean" = (90, 180, 242) := by
  unfold get_color_palette
  rw [if_neg (by norm_num : ¬((9 : ℤ) ≥ 10))]
  simp only
  rw [if_neg (by decide : ¬(("ocean" : String) = "fire"))]
  simp
  refine ⟨?_, ?_, ?_⟩ <;> apply rtrunc_eq_of_nonneg <;> push_cast <;> norm_num

theorem mandelbrot_optimized_inset_pixel_eval :
    mandelbrot_optimized_pixel 9 9 5 4 10 1 0 0 "ocean" = (90, 180, 242) := by
  have hmi : mandelbrot_optimized_max_iter 10 = 10 := by
    norm_num [mandelbrot_optimized_max_iter]
  have hx : linspace (-5 / 2 / 1 + 0) (3 / 2 / 1 + 0) 9 5 = 0 := by
    norm_num [linspace]
  have hy : linspace (-3 / 2 / 1 + 0) (3 / 2 / 1 + 0) 9 4 = 0 := by
    norm_num [linspace]
  simp only [mandelbrot_optimized_pixel, hmi, hx, hy]
  rw [mandelbrot_optimized_count_zero_ten]
  exact ocean_palette_nine_ten

theorem julia_center_orbit_bounded : (julia_loop 10 ((0 : ℚ), 0)).2 = 10 := by
  norm_num [julia_loop, juliaCX, juliaCY]

theorem julia_center_pixel_iter_eval :
    julia_pixel_iter 2 2 1 1 10 = (julia_max_iter 10).toNat := by
  have hz : julia_pixel_z 2 2 1 1 = ((0 : ℚ), 0) := by norm_num [julia_pixel_z]
  have hmi : julia_max_iter 10 = 10 := by norm_num [julia_max_iter]
  simp only [julia_pixel_iter, hz, hmi]
  exact julia_center_orbit_bounded

/-- C5 counterexample: a pixel whose iteration count reaches `max_iter` is
not always coloured black.  At the centre pixel of a 2×2 surface with
`iterations = 10`, `julia.draw` computes the full `max_iter = 10` iteration
count (the orbit of `0` under the default Julia constant stays bounded), yet
colours the pixel `(0, 0, 255)` (blue); and `mandelbrot_optimized` records
`M = max_iter - 1 = 9` for the never-escaping pixel `c = 0` (pixel `(5, 4)`
of a 9×9 surface maps to `0` under `np.linspace`), so it palette-colours it
`(90, 180, 242)` under the ocean palette instead of black. -/
theorem julia_inset_pixel_not_black_cex :
    (julia_pixel_iter 2 2 1 1 10 = (julia_max_iter 10).toNat ∧
      julia_draw_pixel 2 2 1 1 10 = (0, 0, 255) ∧
      ((0, 0, 255) : ℤ × ℤ × ℤ) ≠ (0, 0, 0)) ∧
    (mandelbrot_iteration ((0 : ℚ), 0) 10 = ((10 : ℤ)).toNat ∧
      mandelbrot_optimized_count ((0 : ℚ), 0) 10 = 9 ∧
      mandelbrot_optimized_pixel 9 9 5 4 10 1 0 0 "ocean" = (90, 180, 242) ∧
      ((90, 180, 242) : ℤ × ℤ × ℤ) ≠ (0, 0, 0)) := by
  have hmi : julia_max_iter 10 = 10 := by norm_num [julia_max_iter]
  have hit : julia_pixel_iter 2 2 1 1 10 = 10 := by
    rw [julia_center_pixel_iter_eval, hmi]; rfl
  refine ⟨⟨julia_center_pixel_iter_eval, ?_, by decide⟩,
    mandelbrot_iteration_zero_ten, mandelbrot_optimized_count_zero_ten,
    mandelbrot_optimized_inset_pixel_eval, by decide⟩
  simp only [julia_draw_pixel, hit, hmi, julia_pixel_color]
  norm_num [qtrunc]

/-- C5 (amended): `get_color_palette(n, max_iter, mode)` returns black
`(0,0,0)` whenever `n ≥ max_iter`, for every palette mode, and
`mandelbrot_basic` — whose per-pixel count is `mandelbrot_iteration`, which
returns `max_iter` for never-escaping points — colours such pixels black;
but `mandelbrot_optimized`'s vectorised loop records `M = max_iter - 1` for
never-escaping pixels, which therefore take the palette branch instead of
the black branch, and `julia.draw` colours a pixel whose iteration count
reaches `max_iter` with `(0, 0, 255)` (blue), not black. -/
theorem escape_time_inset_colors :
    (∀ (n m : ℤ) (mode : String), m ≤ n → get_color_palette n m mode = (0, 0, 0)) ∧
    (∀ (w h x y : ℕ) (its : ℤ) (zoom ox oy : ℚ) (p : String),
      mandelbrot_iteration (mandelbrot_basic_coord w h x y zoom ox oy)
          (mandelbrot_basic_max_iter its) = (mandelbrot_basic_max_iter its).toNat →
      mandelbrot_basic_pixel w h x y its zoom ox oy p = (0, 0, 0)) ∧
    (∀ (c : Comp) (its : ℤ),
      mandelbrot_iteration c (mandelbrot_optimized_max_iter its) =
        (mandelbrot_optimized_max_iter its).toNat →
      (mandelbrot_optimized_count c (mandelbrot_optimized_max_iter its) : ℤ) =
        mandelbrot_optimized_max_iter its - 1) ∧
    (∀ (w h x y : ℕ) (its : ℤ),
      julia_pixel_iter w h x y its = (julia_max_iter its).toNat →
      julia_draw_pixel w h x y its = (0, 0, 255)) := by
  refine ⟨fun n m mode hnm => get_color_palette_black n m mode hnm, ?_, ?_, ?_⟩
  · intro w h x y its zoom ox oy p hcount
    rw [mandelbrot_basic_pixel_eq, hcount]
    apply get_color_palette_black
    have hm : (10 : ℤ) ≤ mandelbrot_basic_max_iter its := le_max_left _ _
    omega
  · intro c its hcount
    have hm : (10 : ℤ) ≤ mandelbrot_optimized_max_iter its := le_max_left _ _
    unfold mandelbrot_iteration mandelbrot_state at hcount
    unfold mandelbrot_optimized_count
    rw [hcount]
    omega
  · intro w h x y its hit
    have hm : (10 : ℤ) ≤ julia_max_iter its := le_max_left _ _
    have hmQ : (0 : ℚ) < ((julia_max_iter its : ℚ)) := by
      have : (0 : ℤ) < julia_max_iter its := by omega
      exact_mod_cast this
    have hcast : (((julia_max_iter its).toNat : ℚ)) = ((julia_max_iter its : ℚ)) := by
      have h' : (((julia_max_iter its).toNat : ℤ)) = julia_max_iter its :=
        Int.toNat_of_nonneg (by omega)
      exact_mod_cast h'
    simp only [julia_draw_pixel, hit, julia_pixel_color, hcast]
    have hdiv : ((julia_max_iter its : ℚ)) * 255 / ((julia_max_iter its : ℚ)) = 255 := by
      field_simp
    rw [hdiv]
    norm_num [qtrunc]

/-- Witness for the amended C5: the palette part at `n = 5 ≥ 3 = max_iter`
with the fire palette; `mandelbrot_basic` at the never-escaping pixel
`c = 0` (pixel `(5, 4)` of an 8×8 surface); `mandelbrot_optimized`'s
off-by-one count at `c = 0`; and the Julia part at the centre pixel of a
2×2 surface with `iterations = 10`. -/
theorem escape_time_inset_colors_witness :
    ((3 : ℤ) ≤ 5 ∧ get_color_palette 5 3 "fire" = (0, 0, 0)) ∧
    (mandelbrot_iteration (mandelbrot_basic_coord 8 8 5 4 1 0 0)
        (mandelbrot_basic_max_iter 10) = (mandelbrot_basic_max_iter 10).toNat ∧
      mandelbrot_basic_pixel 8 8 5 4 10 1 0 0 "default" = (0, 0, 0)) ∧
    ((mandelbrot_optimized_count ((0 : ℚ), 0) (mandelbrot_optimized_max_iter 10) : ℤ) =
      mandelbrot_optimized_max_iter 10 - 1) ∧
    (julia_pixel_iter 2 2 1 1 10 = (julia_max_iter 10).toNat ∧
      julia_draw_pixel 2 2 1 1 10 = (0, 0, 255)) := by
  have hcoord : mandelbrot_basic_coord 8 8 5 4 1 0 0 = ((0 : ℚ), 0) := by
    norm_num [mandelbrot_basic_coord]
  have hmb : mandelbrot_basic_max_iter 10 = 10 := by
    norm_num [mandelbrot_basic_max_iter]
  have hb : mandelbrot_iteration (mandelbrot_basic_coord 8 8 5 4 1 0 0)
      (mandelbrot_basic_max_iter 10) = (mandelbrot_basic_max_iter 10).toNat := by
    rw [hcoord, hmb, mandelbrot_iteration_zero_ten]
    rfl
  have hmo : mandelbrot_optimized_max_iter 10 = 10 := by
    norm_num [mandelbrot_optimized_max_iter]
  have ho : mandelbrot_iteration ((0 : ℚ), 0) (mandelbrot_optimized_max_iter 10) =
      (mandelbrot_optimized_max_iter 10).toNat := by
    rw [hmo, mandelbrot_iteration_zero_ten]
    rfl
  exact ⟨⟨by norm_num, escape_time_inset_colors.1 5 3 "fire" (by norm_num)⟩,
    ⟨hb, escape_time_inset_colors.2.1 8 8 5 4 10 1 0 0 "default" hb⟩,
    escape_time_inset_colors.2.2.1 ((0 : ℚ), 0) 10 ho,
    ⟨julia_center_pixel_iter_eval,
     escape_time_inset_colors.2.2.2 2 2 1 1 10 julia_center_pixel_iter_eval⟩⟩

/-- C6 counterexample: `julia.draw` with `iterations = 2000` uses
`max_iter = max(10, 2000) = 2000`, above any `1000` ceiling: the Julia
entry point has no upper clamp. -/
theorem julia_no_upper_clamp_cex :
    julia_max_iter 2000 = 2000 ∧ ¬(julia_max_iter 2000 ≤ 1000) := by
  constructor <;> norm_num [julia_max_iter]

/-- C6 (amended): the three Mandelbrot entry points clamp the effective
`max_iter` to at most `1000` (`1000`, `500` and `200` respectively), but
`julia.draw` only clamps from below (`max(10, iterations)`): its effective
`max_iter` is unbounded. -/
theorem escape_time_max_iter_clamp :
    (∀ iterations : ℤ,
      mandelbrot_optimized_max_iter iterations ≤ 1000 ∧
      mandelbrot_basic_max_iter iterations ≤ 1000 ∧
      mandelbrot_morph_max_iter iterations ≤ 1000) ∧
    (∀ bound : ℤ, ∃ iterations : ℤ, bound < julia_max_iter iterations) := by
  constructor
  · intro it
    refine ⟨?_, ?_, ?_⟩ <;>
      · simp only [mandelbrot_optimized_max_iter, mandelbrot_basic_max_iter,
          mandelbrot_morph_max_iter, max_le_iff, min_le_iff]
        norm_num
  · intro b
    refine ⟨b + 1001, ?_⟩
    calc b < b + 1001 := by omega
    _ ≤ max 10 (b + 1001) := le_max_right _ _

/-- C10: every requested `iterations ≤ 10` (zero and negative included)
yields the same effective `max_iter = 10` in all four escape-time entry
points, hence identical per-pixel output for any two such requests. -/
theorem escape_time_low_iterations_identical (i1 i2 : ℤ)
    (h1 : i1 ≤ 10) (h2 : i2 ≤ 10) :
    (julia_max_iter i1 = 10 ∧ mandelbrot_optimized_max_iter i1 = 10 ∧
      mandelbrot_basic_max_iter i1 = 10 ∧ mandelbrot_morph_max_iter i1 = 10) ∧
    (∀ w h x y : ℕ, julia_draw_pixel w h x y i1 = julia_draw_pixel w h x y i2) ∧
    (∀ (w h x y : ℕ) (zoom ox oy : ℚ) (p : String),
      mandelbrot_basic_pixel w h x y i1 zoom ox oy p =
        mandelbrot_basic_pixel w h x y i2 zoom ox oy p) ∧
    (∀ (w h x y : ℕ) (zoom ox oy : ℚ) (p : String),
      mandelbrot_optimized_pixel w h x y i1 zoom ox oy p =
        mandelbrot_optimized_pixel w h x y i2 zoom ox oy p) ∧
    (∀ (w h x y : ℕ) (morph : ℚ),
      mandelbrot_morph_pixel w h x y i1 morph = mandelbrot_morph_pixel w h x y i2 morph) := by
  have e1 : julia_max_iter i1 = 10 := max_eq_left h1
  have e2 : julia_max_iter i2 = 10 := max_eq_left h2
  have o1 : mandelbrot_optimized_max_iter i1 = 10 := by
    unfold mandelbrot_optimized_max_iter
    rw [min_eq_left (by omega : i1 ≤ 1000)]
    exact max_eq_left h1
  have o2 : mandelbrot_optimized_max_iter i2 = 10 := by
    unfold mandelbrot_optimized_max_iter
    rw [min_eq_left (by omega : i2 ≤ 1000)]
    exact max_eq_left h2
  have b1 : mandelbrot_basic_max_iter i1 = 10 := by
    unfold mandelbrot_basic_max_iter
    rw [min_eq_left (by omega : i1 ≤ 500)]
    exact max_eq_left h1
  have b2 : mandelbrot_basic_max_iter i2 = 10 := by
    unfold mandelbrot_basic_max_iter
    rw [min_eq_left (by omega : i2 ≤ 500)]
    exact max_eq_left h2
  have m1 : mandelbrot_morph_max_iter i1 = 10 := by
    unfold mandelbrot_morph_max_iter
    rw [min_eq_left (by omega : i1 ≤ 200)]
    exact max_eq_left h1
  have m2 : mandelbrot_morph_max_iter i2 = 10 := by
    unfold mandelbrot_morph_max_iter
    rw [min_eq_left (by omega : i2 ≤ 200)]
    exact max_eq_left h2
  refine ⟨⟨e1, o1, b1, m1⟩, ?_, ?_, ?_, ?_⟩
  · intro w h x y
    simp only [julia_draw_pixel, julia_pixel_iter, e1, e2]
  · intro w h x y zoom ox oy p
    simp only [mandelbrot_basic_pixel, b1, b2]
  · intro w h x y zoom ox oy p
    simp only [mandelbrot_optimized_pixel, o1, o2]
  · intro w h x y morph
    simp only [mandelbrot_morph_pixel, m1, m2]

/-- Witness for C10 at `i1 = 0`, `i2 = 7` on a 4×4 surface. -/
theorem escape_time_low_iterations_identical_witness :
    (0 : ℤ) ≤ 10 ∧ (7 : ℤ) ≤ 10 ∧
    julia_max_iter 0 = 10 ∧ mandelbrot_optimized_max_iter 0 = 10 ∧
    mandelbrot_basic_max_iter 0 = 10 ∧ mandelbrot_morph_max_iter 0 = 10 ∧
    julia_draw_pixel 4 4 1 2 0 = julia_draw_pixel 4 4 1 2 7 ∧
    mandelbrot_basic_pixel 4 4 1 2 0 1 0 0 "default" =
      mandelbrot_basic_pixel 4 4 1 2 7 1 0 0 "default" ∧
    mandelbrot_optimized_pixel 4 4 1 2 0 1 0 0 "ocean" =
      mandelbrot_optimized_pixel 4 4 1 2 7 1 0 0 "ocean" ∧
    mandelbrot_morph_pixel 4 4 1 2 0 0 = mandelbrot_morph_pixel 4 4 1 2 7 0 :=
  have T := escape_time_low_iterations_identical 0 7 (by norm_num) (by norm_num)
  ⟨by norm_num, by norm_num, T.1.1, T.1.2.1, T.1.2.2.1, T.1.2.2.2,
   T.2.1 4 4 1 2, T.2.2.1 4 4 1 2 1 0 0 "default",
   T.2.2.2.1 4 4 1 2 1 0 0 "ocean", T.2.2.2.2 4 4 1 2 0⟩

theorem round_range {x : ℝ} {n : ℕ} (h0 : 0 ≤ x) (h1 : x + 1 / 2 < (n : ℝ)) :
    0 ≤ round x ∧ round x < (n : ℤ) := by
  rw [round_eq]
  refine ⟨Int.le_floor.mpr (by push_cast; linarith),
    Int.floor_lt.mpr (by push_cast; linarith)⟩

theorem sqrt3_lt : Real.sqrt 3 < 9 / 5 := by
  rw [show (9 / 5 : ℝ) = Real.sqrt ((9 / 5) ^ 2) from
    (Real.sqrt_sq (by norm_num)).symm]
  exact Real.sqrt_lt_sqrt (by norm_num) (by norm_num)

theorem sqrt3_pos : 0 < Real.sqrt 3 := Real.sqrt_pos.mpr (by norm_num)

/-! ### Koch curve (`fractals/koch.py`) -/

/-- Child points computed by the recursive case of `koch_curve`
(`koch.py` lines 38-68): the two third-points and the equilateral apex.
`math.sqrt` is `Real.sqrt`; Python's `round` (half-to-even) is Mathlib's
`round` — the inputs used below produce no exact half-integers, where the
two conventions agree. -/
noncomputable def koch_children (p1 p2 : ℝ × ℝ) : (ℝ × ℝ) × (ℝ × ℝ) × (ℝ × ℝ) :=
  let x1 := p1.1; let y1 := p1.2
  let x5 := p2.1; let y5 := p2.2
  let dx := (x5 - x1) / 3
  let dy := (y5 - y1) / 3
  let x2 := x1 + dx; let y2 := y1 + dy
  let x4 := x1 + 2 * dx; let y4 := y1 + 2 * dy
  let mid_x := (x2 + x4) * (1 / 2)
  let mid_y := (y2 + y4) * (1 / 2)
  let side_length := Real.sqrt (dx * dx + dy * dy)
  let tri_height := side_length * Real.sqrt 3 * (1 / 2)
  let perp_x := if side_length > 0 then -(dy / side_length) * tri_height else 0
  let perp_y := if side_length > 0 then (dx / side_length) * tri_height else 0
  ((x2, y2), (mid_x + perp_x, mid_y + perp_y), (x4, y4))

/-- The base-case validity test of `koch_curve` (`koch.py` lines 26-29):
both rounded endpoints must lie in `[0, width] × [0, height]`. -/
def seg_ok (W H : ℕ) (p q : ℝ × ℝ) : Prop :=
  0 ≤ round p.1 ∧ round p.1 ≤ (W : ℤ) ∧ 0 ≤ round p.2 ∧ round p.2 ≤ (H : ℤ) ∧
  0 ≤ round q.1 ∧ round q.1 ≤ (W : ℤ) ∧ 0 ≤ round q.2 ∧ round q.2 ≤ (H : ℤ)

noncomputable instance seg_ok_decidable (W H : ℕ) (p q : ℝ × ℝ) :
    Decidable (seg_ok W H p q) := by
  unfold seg_ok
  infer_instance

/-- `koch_curve(p1, p2, depth, surface)` from `koch.py` (lines 5-74), as the
list of integer segments passed to `pygame.draw.line`, in drawing order.
At depth 0 the segment is silently dropped when its rounded endpoints fall
outside the surface.  The Python `depth` is a non-negative recursion
parameter (`ℕ`). -/
noncomputable def koch_curve (p1 p2 : ℝ × ℝ) : ℕ → (W H : ℕ) → List ((ℤ × ℤ) × (ℤ × ℤ))
  | 0, W, H =>
    if seg_ok W H p1 p2 then
      [((round p1.1, round p1.2), (round p2.1, round p2.2))]
    else []
  | d + 1, W, H =>
    let q := koch_children p1 p2
    koch_curve p1 q.1 d W H ++ koch_curve q.1 q.2.1 d W H ++
      koch_curve q.2.1 q.2.2 d W H ++ koch_curve q.2.2 p2 d W H

/-- The hypothesis "the recursion stays inside the raster bounds": every
base-case segment of the recursion passes the validity test. -/
noncomputable def koch_in_bounds (p1 p2 : ℝ × ℝ) : ℕ → (W H : ℕ) → Prop
  | 0, W, H => seg_ok W H p1 p2
  | d + 1, W, H =>
    let q := koch_children p1 p2
    koch_in_bounds p1 q.1 d W H ∧ koch_in_bounds q.1 q.2.1 d W H ∧
      koch_in_bounds q.2.1 q.2.2 d W H ∧ koch_in_bounds q.2.2 p2 d W H

/-- C2: whenever the recursion stays inside the raster bounds, `koch_curve`
emits exactly `4 ^ depth` segments; and on `p1 = (0,100)`, `p2 = (300,100)`,
`depth = 0` (on a 400×400 surface) it emits exactly one segment whose
endpoints equal the input endpoints. -/
theorem koch_curve_segment_count :
    (∀ (d : ℕ) (p1 p2 : ℝ × ℝ) (W H : ℕ), koch_in_bounds p1 p2 d W H →
      (koch_curve p1 p2 d W H).length = 4 ^ d) ∧
    koch_curve (0, 100) (300, 100) 0 400 400 = [((0, 100), (300, 100))] := by
  constructor
  · intro d
    induction d with
    | zero =>
      intro p1 p2 W H hb
      simp only [koch_curve, koch_in_bounds] at hb ⊢
      rw [if_pos hb]
      rfl
    | succ d ih =>
      intro p1 p2 W H hb
      simp only [koch_curve, koch_in_bounds] at hb ⊢
      obtain ⟨h1, h2, h3, h4⟩ := hb
      rw [List.length_append, List.length_append, List.length_append,
        ih _ _ _ _ h1, ih _ _ _ _ h2, ih _ _ _ _ h3, ih _ _ _ _ h4, pow_succ]
      omega
  · have hok : seg_ok 400 400 ((0 : ℝ), 100) (300, 100) := by
      simp only [seg_ok]
      norm_num
    simp only [koch_curve]
    rw [if_pos hok]
    norm_num

theorem koch_children_eval :
    koch_children ((0 : ℝ), 100) (300, 100) =
      ((100, 100), (150, 100 + 50 * Real.sqrt 3), (200, 100)) := by
  unfold koch_children
  have harg : ((300 : ℝ) - 0) / 3 * (((300 : ℝ) - 0) / 3) +
      ((100 : ℝ) - 100) / 3 * (((100 : ℝ) - 100) / 3) = 100 ^ 2 := by norm_num
  have hsqrt : Real.sqrt (((300 : ℝ) - 0) / 3 * (((300 : ℝ) - 0) / 3) +
      ((100 : ℝ) - 100) / 3 * (((100 : ℝ) - 100) / 3)) = 100 := by
    rw [harg, Real.sqrt_sq (by norm_num : (0 : ℝ) ≤ 100)]
  simp only [hsqrt]
  norm_num
  ring

/-- Witness for C2: the in-bounds hypothesis discharged at depth 1 on the
concrete input of the claim (all five recursion points, the equilateral
apex `(150, 100 + 50√3)` included, round into the 400×400 raster). -/
theorem koch_curve_segment_count_witness :
    koch_in_bounds ((0 : ℝ), 100) (300, 100) 1 400 400 ∧
    (koch_curve ((0 : ℝ), 100) (300, 100) 1 400 400).length = 4 ^ 1 := by
  have hapex : 0 ≤ round (100 + 50 * Real.sqrt 3) ∧
      round (100 + 50 * Real.sqrt 3) < (400 : ℤ) := by
    refine round_range (by positivity) ?_
    have := sqrt3_lt
    push_cast
    linarith
  have hapex' : 0 ≤ round (50 * Real.sqrt 3) ∧ round (50 * Real.sqrt 3) < (300 : ℤ) := by
    refine round_range (by positivity) ?_
    have := sqrt3_lt
    push_cast
    linarith
  have hok : koch_in_bounds ((0 : ℝ), 100) (300, 100) 1 400 400 := by
    obtain ⟨ha1, ha2⟩ := hapex
    obtain ⟨hb1, hb2⟩ := hapex'
    simp only [koch_in_bounds, koch_children_eval, seg_ok]
    norm_num
    omega
  exact ⟨hok, koch_curve_segment_count.1 1 ((0 : ℝ), 100) (300, 100) 400 400 hok⟩

/-! ### Sierpinski (`fractals/sierpinski.py`) -/

/-- The two rendering methods `sierpinski.draw` can select. -/
inductive SierpinskiMethod where
  | recursive
  | chaosGame
deriving DecidableEq

/-- The method-selection policy of `sierpinski.draw` (`sierpinski.py` lines
219-229): `if iterations <= 7` use the geometric recursion, otherwise the
chaos game. -/
def sierpinski_draw_method (iterations : ℤ) : SierpinskiMethod :=
  if iterations ≤ 7 then .recursive else .chaosGame

/-- `num_points = min(100000, iterations * 8000)` on the chaos-game branch
(`sierpinski.py` line 228). -/
def sierpinski_chaos_points (iterations : ℤ) : ℤ := min 100000 (iterations * 8000)

/-- C7: there is a fixed threshold (`T = 7`) such that every `iterations`
strictly above it renders with the chaos game and every `iterations` at or
below it renders with the geometric recursion. -/
theorem sierpinski_method_threshold (iterations : ℤ) :
    (7 < iterations → sierpinski_draw_method iterations = .chaosGame) ∧
    (iterations ≤ 7 → sierpinski_draw_method iterations = .recursive) := by
  constructor
  · intro h
    simp [sierpinski_draw_method, not_le.mpr h]
  · intro h
    simp [sierpinski_draw_method, h]

/-- Witness for C7 at `iterations = 8` and `iterations = 7`. -/
theorem sierpinski_method_threshold_witness :
    sierpinski_draw_method 8 = .chaosGame ∧ sierpinski_draw_method 7 = .recursive :=
  ⟨(sierpinski_method_threshold 8).1 (by norm_num),
   (sierpinski_method_threshold 7).2 (by norm_num)⟩

/-! ### The chaos game (`sierpinski_chaos_game`, `sierpinski.py` lines 94-152)

The Python `random` module is modelled by an abstract generator state `G`
with one primitive draw per call site: `rand` for `random.random()` (which
`random.uniform(a, b)` turns into `a + (b-a)*random()`, exactly as CPython
does), `choice` for the index drawn by `random.choice` on an `n`-element
list, `randint` for `random.randint`, and `seedf` for `random.seed`. -/

structure PyRandom (G : Type) where
  seedf : ℤ → G
  rand : G → ℚ × G
  rand_mem : ∀ g, 0 ≤ (rand g).1 ∧ (rand g).1 < 1
  choice : ℕ → G → ℕ × G
  choice_lt : ∀ n g, 0 < n → (choice n g).1 < n
  randint : ℤ → ℤ → G → ℤ × G

/-- `random.uniform(a, b) = a + (b - a) * random()`. -/
noncomputable def PyRandom.uniform {G : Type} (R : PyRandom G) (a b : ℝ) (g : G) : ℝ × G :=
  let r := R.rand g
  (a + (b - a) * ((r.1 : ℝ)), r.2)

/-- `size = min(width, height) * 0.75` (`sierpinski.py` line 110). -/
noncomputable def chaos_size (w h : ℕ) : ℝ := min (w : ℝ) (h : ℝ) * (75 / 100)

/-- `center_x = width * 0.5` (line 111). -/
noncomputable def chaos_center_x (w : ℕ) : ℝ := (w : ℝ) * (1 / 2)

/-- `center_y = height * 0.5` (line 111). -/
noncomputable def chaos_center_y (h : ℕ) : ℝ := (h : ℝ) * (1 / 2)

/-- `height_triangle = size * math.sqrt(3) * 0.5` (line 114). -/
noncomputable def chaos_height_triangle (w h : ℕ) : ℝ :=
  chaos_size w h * Real.sqrt 3 * (1 / 2)

/-- The three fixed triangle vertices (lines 115-119). -/
noncomputable def chaos_vertices (w h : ℕ) : List (ℝ × ℝ) :=
  [(chaos_center_x w, chaos_center_y h - chaos_height_triangle w h * (667 / 1000)),
   (chaos_center_x w - chaos_size w h * (1 / 2),
    chaos_center_y h + chaos_height_triangle w h * (333 / 1000)),
   (chaos_center_x w + chaos_size w h * (1 / 2),
    chaos_center_y h + chaos_height_triangle w h * (333 / 1000))]

/-- The random starting point (lines 122-125): `center + uniform(-size*0.25,
size*0.25)` in `x` and `center + uniform(-ht*0.25, ht*0.25)` in `y`. -/
noncomputable def chaos_start {G : Type} (R : PyRandom G) (w h : ℕ) (g : G) :
    (ℝ × ℝ) × G :=
  let r1 := R.uniform (-(chaos_size w h * (25 / 100))) (chaos_size w h * (25 / 100)) g
  let r2 := R.uniform (-(chaos_height_triangle w h * (25 / 100)))
    (chaos_height_triangle w h * (25 / 100)) r1.2
  ((chaos_center_x w + r1.1, chaos_center_y h + r2.1), r2.2)

/-- One loop iteration (lines 131-137): pick a random vertex and move the
current point halfway toward it. -/
noncomputable def chaos_step {G : Type} (R : PyRandom G) (w h : ℕ) (p : ℝ × ℝ) (g : G) :
    (ℝ × ℝ) × G :=
  let c := R.choice 3 g
  let t := (chaos_vertices w h).getD c.1 (0, 0)
  (((p.1 + t.1) * (1 / 2), (p.2 + t.2) * (1 / 2)), c.2)

/-- The current point after `i` loop iterations, starting from `p0`. -/
noncomputable def chaos_traj {G : Type} (R : PyRandom G) (w h : ℕ) (p0 : ℝ × ℝ) :
    ℕ → G → (ℝ × ℝ) × G
  | 0, g => (p0, g)
  | i + 1, g =>
    let r := chaos_traj R w h p0 i g
    chaos_step R w h r.1 r.2

/-- The point reached after loop index `i` is plotted iff `i > 20` and its
rounded coordinates satisfy `0 <= x < width and 0 <= y < height`
(lines 140-142). -/
def chaos_plotted (w h : ℕ) (i : ℕ) (p : ℝ × ℝ) : Prop :=
  20 < i ∧ 0 ≤ round p.1 ∧ round p.1 < (w : ℤ) ∧ 0 ≤ round p.2 ∧ round p.2 < (h : ℤ)

/-- The list of pixels `sierpinski_chaos_game` plots (the point after loop
index `i` is the `(i+1)`-st iterate of the start). -/
noncomputable def chaos_game_pixels {G : Type} (R : PyRandom G) (w h : ℕ)
    (iterations : ℕ) (g : G) : List (ℤ × ℤ) :=
  let st := chaos_start R w h g
  (List.range iterations).filterMap (fun i =>
    let p := (chaos_traj R w h st.1 (i + 1) st.2).1
    if 20 < i ∧ 0 ≤ round p.1 ∧ round p.1 < (w : ℤ) ∧ 0 ≤ round p.2 ∧ round p.2 < (h : ℤ)
    then some (round p.1, round p.2) else none)

/-- Membership in the convex hull of the three chaos-game vertices. -/
noncomputable def in_tri_hull (w h : ℕ) (p : ℝ × ℝ) : Prop :=
  ∃ a b c : ℝ, 0 ≤ a ∧ 0 ≤ b ∧ 0 ≤ c ∧ a + b + c = 1 ∧
    p.1 = a * ((chaos_vertices w h).getD 0 (0, 0)).1 +
      b * ((chaos_vertices w h).getD 1 (0, 0)).1 +
      c * ((chaos_vertices w h).getD 2 (0, 0)).1 ∧
    p.2 = a * ((chaos_vertices w h).getD 0 (0, 0)).2 +
      b * ((chaos_vertices w h).getD 1 (0, 0)).2 +
      c * ((chaos_vertices w h).getD 2 (0, 0)).2

/-- Membership in the convex hull of the three vertices together with the
starting point `q`. -/
noncomputable def in_tri_hull_ext (w h : ℕ) (q p : ℝ × ℝ) : Prop :=
  ∃ a b c d : ℝ, 0 ≤ a ∧ 0 ≤ b ∧ 0 ≤ c ∧ 0 ≤ d ∧ a + b + c + d = 1 ∧
    p.1 = a * ((chaos_vertices w h).getD 0 (0, 0)).1 +
      b * ((chaos_vertices w h).getD 1 (0, 0)).1 +
      c * ((chaos_vertices w h).getD 2 (0, 0)).1 + d * q.1 ∧
    p.2 = a * ((chaos_vertices w h).getD 0 (0, 0)).2 +
      b * ((chaos_vertices w h).getD 1 (0, 0)).2 +
      c * ((chaos_vertices w h).getD 2 (0, 0)).2 + d * q.2

/-- C4 (amended): every iterate of the chaos game — in particular every
plotted point — lies in the convex hull of the three fixed vertices
*extended by the starting point*.  (The hull of the three vertices alone is
not enough: see the counterexample.) -/
theorem chaos_game_in_extended_hull {G : Type} (R : PyRandom G) (w h : ℕ)
    (p0 : ℝ × ℝ) (k : ℕ) (g : G) :
    in_tri_hull_ext w h p0 (chaos_traj R w h p0 k g).1 := by
  induction k with
  | zero =>
    refine ⟨0, 0, 0, 1, le_refl 0, le_refl 0, le_refl 0, by norm_num, by ring, ?_, ?_⟩ <;>
      · simp only [chaos_traj]
        ring
  | succ i ih =>
    obtain ⟨a, b, c, d, ha, hb, hc, hd, hsum, hx, hy⟩ := ih
    have hj : (R.choice 3 (chaos_traj R w h p0 i g).2).1 < 3 :=
      R.choice_lt 3 _ (by norm_num)
    simp only [chaos_traj, chaos_step]
    set j := (R.choice 3 (chaos_traj R w h p0 i g).2).1 with hjdef
    interval_cases j
    · refine ⟨a / 2 + 1 / 2, b / 2, c / 2, d / 2, by linarith, by linarith, by linarith,
        by linarith, by linarith, ?_, ?_⟩ <;> simp only [hx, hy] <;> ring
    · refine ⟨a / 2, b / 2 + 1 / 2, c / 2, d / 2, by linarith, by linarith, by linarith,
        by linarith, by linarith, ?_, ?_⟩ <;> simp only [hx, hy] <;> ring
    · refine ⟨a / 2, b / 2, c / 2 + 1 / 2, d / 2, by linarith, by linarith, by linarith,
        by linarith, by linarith, ?_, ?_⟩ <;> simp only [hx, hy] <;> ring

/-- The degenerate generator whose every draw is `0`: `random()` returns
`0` (a legal value in `[0, 1)`) and `choice` always picks index `0`. -/
noncomputable def zeroRandom : PyRandom Unit where
  seedf := fun _ => ()
  rand := fun _ => (0, ())
  rand_mem := fun _ => by norm_num
  choice := fun _ _ => (0, ())
  choice_lt := fun _ _ hn => hn
  randint := fun a _ _ => (a, ())

/-- The starting point drawn by `zeroRandom`: the bottom corner
`(center - size*0.25, center - height_triangle*0.25)` of the admissible
start box. -/
noncomputable def chaos_cex_start : ℝ × ℝ := (chaos_start zeroRandom 300 300 ()).1

/-- The point the chaos game plots at loop index `21` (the 22nd iterate)
when every vertex choice is the top vertex. -/
noncomputable def chaos_cex_point : ℝ × ℝ :=
  (chaos_traj zeroRandom 300 300 chaos_cex_start 22 ()).1

theorem zeroRandom_choice_fst (n : ℕ) (g : Unit) : (zeroRandom.choice n g).1 = 0 := rfl

theorem chaos_traj_zeroRandom (w h : ℕ) (p0 : ℝ × ℝ) (k : ℕ) :
    (chaos_traj zeroRandom w h p0 k ()).1 =
      (((chaos_vertices w h).getD 0 (0, 0)).1 +
        (p0.1 - ((chaos_vertices w h).getD 0 (0, 0)).1) / 2 ^ k,
       ((chaos_vertices w h).getD 0 (0, 0)).2 +
        (p0.2 - ((chaos_vertices w h).getD 0 (0, 0)).2) / 2 ^ k) := by
  induction k with
  | zero =>
    simp only [chaos_traj, pow_zero]
    rw [Prod.ext_iff]
    constructor <;> simp
  | succ i ih =>
    simp only [chaos_traj, chaos_step, zeroRandom_choice_fst, ih, Prod.mk.injEq]
    constructor <;> ring

theorem zeroRandom_rand (g : Unit) : zeroRandom.rand g = (0, ()) := rfl

theorem chaos_size_300 : chaos_size 300 300 = 225 := by
  norm_num [chaos_size]

theorem chaos_height_triangle_300 :
    chaos_height_triangle 300 300 = 225 * Real.sqrt 3 * (1 / 2) := by
  rw [chaos_height_triangle, chaos_size_300]

theorem chaos_cex_start_eval :
    chaos_cex_start = (375 / 4, 150 - chaos_height_triangle 300 300 * (25 / 100)) := by
  rw [chaos_cex_start, chaos_start, Prod.ext_iff]
  simp only [PyRandom.uniform, zeroRandom_rand, chaos_size_300, chaos_center_x,
    chaos_center_y]
  norm_num
  ring

theorem chaos_v0_eval :
    ((chaos_vertices 300 300).getD 0 (0, 0)) =
      (150, 150 - chaos_height_triangle 300 300 * (667 / 1000)) := by
  simp only [chaos_vertices, List.getD, chaos_center_x, chaos_center_y]
  norm_num

theorem chaos_v1_eval :
    ((chaos_vertices 300 300).getD 1 (0, 0)) =
      (75 / 2, 150 + chaos_height_triangle 300 300 * (333 / 1000)) := by
  simp only [chaos_vertices, List.getD, chaos_center_x, chaos_center_y]
  rw [chaos_size_300, Prod.ext_iff]
  norm_num

theorem chaos_v2_eval :
    ((chaos_vertices 300 300).getD 2 (0, 0)) =
      (525 / 2, 150 + chaos_height_triangle 300 300 * (333 / 1000)) := by
  simp only [chaos_vertices, List.getD, chaos_center_x, chaos_center_y]
  rw [chaos_size_300, Prod.ext_iff]
  norm_num

theorem chaos_cex_point_eval :
    chaos_cex_point =
      (150 - (225 / 4) / 2 ^ 22,
       150 - chaos_height_triangle 300 300 * (667 / 1000) +
         chaos_height_triangle 300 300 * (417 / 1000) / 2 ^ 22) := by
  rw [chaos_cex_point, chaos_traj_zeroRandom, chaos_v0_eval, chaos_cex_start_eval,
    Prod.ext_iff]
  constructor <;> simp only <;> ring

/-- C4 counterexample: on a 300×300 surface, when both `random.uniform`
draws return their lower endpoint (start = bottom-left corner of the
admissible start box, a legal value of `uniform`) and every
`random.choice` picks the top vertex, the point plotted at loop index `21`
— after the 20-iteration warm-up, and inside the raster, so it is actually
plotted — lies strictly outside the convex hull of the three fixed
vertices. -/
theorem chaos_game_outside_hull_cex :
    chaos_plotted 300 300 21 chaos_cex_point ∧ ¬ in_tri_hull 300 300 chaos_cex_point := by
  have hA := chaos_height_triangle_300
  have h3l := sqrt3_lt
  have h3p := sqrt3_pos
  have hApos : 0 < chaos_height_triangle 300 300 := by rw [hA]; positivity
  have hAub : chaos_height_triangle 300 300 ≤ 405 / 2 := by rw [hA]; nlinarith
  constructor
  · refine ⟨by norm_num, ?_⟩
    rw [chaos_cex_point_eval]
    have hx := round_range (x := 150 - (225 / 4) / 2 ^ 22) (n := 300)
      (by norm_num) (by norm_num)
    have hy := round_range
      (x := 150 - chaos_height_triangle 300 300 * (667 / 1000) +
        chaos_height_triangle 300 300 * (417 / 1000) / 2 ^ 22) (n := 300)
      (by nlinarith) (by nlinarith)
    exact ⟨hx.1, hx.2, hy.1, hy.2⟩
  · rintro ⟨a, b, c, ha, hb, hc, hsum, hx, hy⟩
    rw [chaos_cex_point_eval] at hx hy
    rw [chaos_v0_eval, chaos_v1_eval, chaos_v2_eval] at hx hy
    simp only at hx hy
    have e2 : (b + c) * chaos_height_triangle 300 300 =
        (417 / 1000 / 2 ^ 22) * chaos_height_triangle 300 300 := by
      linear_combination -hy - (150 - chaos_height_triangle 300 300 * (667 / 1000)) * hsum
    have e3 : b + c = 417 / 1000 / 2 ^ 22 :=
      mul_right_cancel₀ (ne_of_gt hApos) e2
    have e1 : b - c = 1 / 2 ^ 23 := by linarith
    linarith

/-! ### Recursive fractal tree (`fractals/arbol.py`) -/

/-- A tree parameter set (`TreeParameters` dictionaries, `arbol.py` lines
6-68), with the defaults used by `params.get(...)`: `droop_factor`
defaults to `1.0`, `min_length` to `2.0`. -/
structure TreeParams where
  angle_left : ℝ
  angle_right : ℝ
  length_factor : ℝ
  thickness_factor : ℝ
  branches : ℕ
  droop_factor : ℝ
  min_length : ℝ

/-- `TreeParameters.CLASSIC` (`arbol.py` lines 10-17). -/
noncomputable def TreeParameters_CLASSIC : TreeParams :=
  { angle_left := 25, angle_right := 25, length_factor := 7 / 10,
    thickness_factor := 8 / 10, branches := 2, droop_factor := 1, min_length := 3 }

/-- The arguments of one `draw_tree_recursive` call that drive the
recursion. -/
structure TreeState where
  x : ℝ
  y : ℝ
  angle : ℝ
  depth : ℤ
  length : ℝ

/-- The recursive calls `draw_tree_recursive` makes from one call
(`arbol.py` lines 87-171): the empty list when the stop condition
`depth <= 0 or length < max(params.min_length, min_branch_size)` (lines
88-89) holds, the two (or `branches`) child calls otherwise.  The in-bounds
check on the drawn segment only gates drawing, never the recursion. -/
noncomputable def tree_children (P : TreeParams) (min_branch_size : ℝ)
    (s : TreeState) : List TreeState :=
  if s.depth ≤ 0 ∨ s.length < max P.min_length min_branch_size then []
  else
    let angle_rad := s.angle * Real.pi / 180
    let x2 := s.x + Real.cos angle_rad * s.length
    let y2 := s.y - Real.sin angle_rad * s.length
    if P.branches = 2 then
      let new_length := s.length * P.length_factor
      let angle_modifier : ℝ :=
        if 1 < P.droop_factor ∧ s.depth < 4 then
          ((4 - s.depth : ℤ) : ℝ) * 5 * (P.droop_factor - 1)
        else 0
      [⟨x2, y2, s.angle + P.angle_left - angle_modifier, s.depth - 1, new_length⟩,
       ⟨x2, y2, s.angle - P.angle_right - angle_modifier, s.depth - 1, new_length⟩]
    else
      let angle_spread : ℝ := 50 + ((P.branches : ℝ) - 2) * 10
      let new_length := s.length * P.length_factor
      (List.range P.branches).map fun (i : ℕ) =>
        if P.branches = 1 then
          ⟨x2, y2, s.angle, s.depth - 1, new_length⟩
        else
          let position_factor : ℝ := (i : ℝ) / ((P.branches : ℝ) - 1) - 1 / 2
          let branch_angle := s.angle + angle_spread * position_factor
          let length_variation := 9 / 10 + 2 / 10 * |position_factor|
          ⟨x2, y2, branch_angle, s.depth - 1, new_length * length_variation⟩

theorem tree_children_mem_depth (P : TreeParams) (mbs : ℝ) {s t : TreeState}
    (ht : t ∈ tree_children P mbs s) :
    0 < s.depth ∧ t.depth = s.depth - 1 ∧
      max P.min_length mbs ≤ s.length := by
  by_cases hg : s.depth ≤ 0 ∨ s.length < max P.min_length mbs
  · rw [tree_children, if_pos hg] at ht
    simp at ht
  · push_neg at hg
    rw [tree_children, if_neg (by push_neg; exact hg)] at ht
    refine ⟨by omega, ?_, hg.2⟩
    split at ht
    · simp only [List.mem_cons, List.not_mem_nil, or_false] at ht
      rcases ht with h | h <;> subst h <;> rfl
    · simp only [List.mem_map] at ht
      obtain ⟨i, _, rfl⟩ := ht
      split <;> rfl

/-- C8: with a branch count of at least 2 (the data-model invariant on tree
parameter sets), `0 < length_factor < 1` and `min_length > 0`:
(1) recursion stops exactly when `depth ≤ 0` or the branch length falls
below `max(params.min_length, min_branch_size)`; (2) along every recursive
edge the branch length strictly decreases and the depth drops by one; and
(3) the recursion terminates from every starting position, angle, depth and
length (the child relation is accessible everywhere). -/
theorem draw_tree_recursive_terminates (P : TreeParams) (min_branch_size : ℝ)
    (hb : 2 ≤ P.branches) (hlf0 : 0 < P.length_factor) (hlf1 : P.length_factor < 1)
    (hml : 0 < P.min_length) :
    (∀ s : TreeState, tree_children P min_branch_size s = [] ↔
      (s.depth ≤ 0 ∨ s.length < max P.min_length min_branch_size)) ∧
    (∀ s t : TreeState, t ∈ tree_children P min_branch_size s →
      t.length < s.length ∧ t.depth = s.depth - 1) ∧
    (∀ s : TreeState, Acc (fun t u : TreeState => t ∈ tree_children P min_branch_size u) s) := by
  have hmem : ∀ s t : TreeState, t ∈ tree_children P min_branch_size s →
      t.length < s.length ∧ t.depth = s.depth - 1 := by
    intro s t ht
    obtain ⟨hdpos, hdep, hlen⟩ := tree_children_mem_depth P min_branch_size ht
    refine ⟨?_, hdep⟩
    have hlpos : 0 < s.length := lt_of_lt_of_le (lt_of_lt_of_le hml (le_max_left _ _)) hlen
    have hg : ¬(s.depth ≤ 0 ∨ s.length < max P.min_length min_branch_size) := by
      push_neg
      exact ⟨by omega, hlen⟩
    rw [tree_children, if_neg hg] at ht
    have hmul : s.length * P.length_factor < s.length := by
      calc s.length * P.length_factor < s.length * 1 := by
            exact (mul_lt_mul_left hlpos).mpr hlf1
      _ = s.length := mul_one _
    split at ht
    · simp only [List.mem_cons, List.not_mem_nil, or_false] at ht
      rcases ht with h | h <;> subst h <;> exact hmul
    · rename_i hb2
      simp only [List.mem_map, List.mem_range] at ht
      obtain ⟨i, hi, rfl⟩ := ht
      have hb3 : 3 ≤ P.branches := by omega
      rw [if_neg (by omega)]
      have hbR : (1 : ℝ) ≤ (P.branches : ℝ) - 1 := by
        have : (3 : ℝ) ≤ (P.branches : ℝ) := by exact_mod_cast hb3
        linarith
      have hpf : |(i : ℝ) / ((P.branches : ℝ) - 1) - 1 / 2| ≤ 1 / 2 := by
        rw [abs_le]
        constructor
        · have : (0 : ℝ) ≤ (i : ℝ) / ((P.branches : ℝ) - 1) :=
            div_nonneg (by positivity) (by linarith)
          linarith
        · have hile : (i : ℝ) ≤ (P.branches : ℝ) - 1 := by
            have : (i : ℝ) + 1 ≤ (P.branches : ℝ) := by exact_mod_cast hi
            linarith
          have : (i : ℝ) / ((P.branches : ℝ) - 1) ≤ 1 :=
            (div_le_one (by linarith)).mpr hile
          linarith
      have hvar : 9 / 10 + 2 / 10 * |(i : ℝ) / ((P.branches : ℝ) - 1) - 1 / 2| ≤ 1 := by
        linarith
      have hnlpos : 0 < s.length * P.length_factor := by positivity
      calc s.length * P.length_factor *
            (9 / 10 + 2 / 10 * |(i : ℝ) / ((P.branches : ℝ) - 1) - 1 / 2|) ≤
          s.length * P.length_factor * 1 := by
            apply mul_le_mul_of_nonneg_left hvar hnlpos.le
      _ = s.length * P.length_factor := mul_one _
      _ < s.length := hmul
  refine ⟨?_, hmem, ?_⟩
  · intro s
    by_cases hg : s.depth ≤ 0 ∨ s.length < max P.min_length min_branch_size
    · rw [tree_children, if_pos hg]
      exact iff_of_true rfl hg
    · rw [tree_children, if_neg hg]
      constructor
      · intro h
        split at h
        · simp at h
        · rw [List.map_eq_nil, List.range_eq_nil] at h
          omega
      · intro h
        exact absurd h hg
  · have hstep : ∀ (n : ℕ) (s : TreeState), s.depth.toNat ≤ n →
        Acc (fun t u : TreeState => t ∈ tree_children P min_branch_size u) s := by
      intro n
      induction n with
      | zero =>
        intro s hs
        constructor
        intro t ht
        obtain ⟨hdpos, _, _⟩ := tree_children_mem_depth P min_branch_size ht
        omega
      | succ n ih =>
        intro s hs
        constructor
        intro t ht
        obtain ⟨hdpos, hdep, _⟩ := tree_children_mem_depth P min_branch_size ht
        apply ih
        omega
    exact fun s => hstep s.depth.toNat s (le_refl _)

/-- Witness for C8: the `CLASSIC` parameter set with `min_branch_size = 1`;
the stop condition at `depth = 0`, and accessibility (termination) from the
start state `draw` uses on a 600×600 surface (`x=300`, `y=540`,
`angle=90`, `depth=10`, `length=90`). -/
theorem draw_tree_recursive_terminates_witness :
    2 ≤ TreeParameters_CLASSIC.branches ∧
    0 < TreeParameters_CLASSIC.length_factor ∧
    TreeParameters_CLASSIC.length_factor < 1 ∧
    0 < TreeParameters_CLASSIC.min_length ∧
    tree_children TreeParameters_CLASSIC 1 ⟨300, 540, 90, 0, 90⟩ = [] ∧
    Acc (fun t u : TreeState => t ∈ tree_children TreeParameters_CLASSIC 1 u)
      ⟨300, 540, 90, 10, 90⟩ := by
  have h1 : 2 ≤ TreeParameters_CLASSIC.branches := by
    norm_num [TreeParameters_CLASSIC]
  have h2 : 0 < TreeParameters_CLASSIC.length_factor := by
    norm_num [TreeParameters_CLASSIC]
  have h3 : TreeParameters_CLASSIC.length_factor < 1 := by
    norm_num [TreeParameters_CLASSIC]
  have h4 : 0 < TreeParameters_CLASSIC.min_length := by
    norm_num [TreeParameters_CLASSIC]
  have T := draw_tree_recursive_terminates TreeParameters_CLASSIC 1 h1 h2 h3 h4
  exact ⟨h1, h2, h3, h4, (T.1 ⟨300, 540, 90, 0, 90⟩).mpr (Or.inl (by norm_num)),
    T.2.2 ⟨300, 540, 90, 10, 90⟩⟩

/-! ### Stochastic and wind trees (`arbol.py` lines 257-344 and 346-411) -/

/-- One drawn branch: rounded endpoints, RGB colour, stroke thickness. -/
abbrev StochSeg := ((ℤ × ℤ) × (ℤ × ℤ)) × (ℤ × ℤ × ℤ) × ℤ

/-- `brown_variants` (`arbol.py` lines 290-293). -/
def brown_variants : List (ℤ × ℤ × ℤ) :=
  [(139, 69, 19), (101, 67, 33), (160, 82, 45), (120, 60, 30), (150, 75, 40)]

/-- `green_variants` (`arbol.py` lines 296-299). -/
def green_variants : List (ℤ × ℤ × ℤ) :=
  [(34, 139, 34), (0, 128, 0), (50, 205, 50), (0, 100, 0), (60, 179, 113), (46, 139, 87)]

/-- The `random.seed(seed + depth * 100)` entry step of
`draw_tree_stochastic` (`arbol.py` lines 270-271): with a seed the incoming
generator state is overwritten, without one it is kept. -/
noncomputable def stoch_entry_state {G : Type} (R : PyRandom G) (depth : ℕ)
    (seed : Option ℤ) (g0 : G) : G :=
  match seed with
  | some s => R.seedf (s + (depth : ℤ) * 100)
  | none => g0

/-- The body of `draw_tree_stochastic` after the entry reseed (`arbol.py`
lines 273-344), returning the drawn segments and the final generator state;
each recursive call passes through the entry reseed of its own level. -/
noncomputable def draw_tree_stochastic_go {G : Type} (R : PyRandom G)
    (depth : ℕ) (x y angle length randomness : ℝ) (seed : Option ℤ) (g : G) :
    List StochSeg × G :=
  match depth with
  | 0 => ([], g)
  | d + 1 =>
    if length < 2 then ([], g)
    else
      let r1 := R.uniform (-(randomness * 20)) (randomness * 20) g
      let r2 := R.uniform (1 - randomness * (4 / 10)) (1 + randomness * (3 / 10)) r1.2
      let actual_angle := angle + r1.1
      let actual_length := length * r2.1
      let angle_rad := actual_angle * Real.pi / 180
      let x2 := x + Real.cos angle_rad * actual_length
      let y2 := y - Real.sin angle_rad * actual_length
      let cpick : (ℤ × ℤ × ℤ) × G :=
        if 4 < d + 1 then
          let rc := R.choice brown_variants.length r2.2
          (brown_variants.getD rc.1 (0, 0, 0), rc.2)
        else
          let rc := R.choice green_variants.length r2.2
          (green_variants.getD rc.1 (0, 0, 0), rc.2)
      let rt := R.randint (-1) 1 cpick.2
      let base_thickness : ℤ := max 1 (rtrunc (((d + 1 : ℕ) : ℝ) * (9 / 10)))
      let thickness : ℤ := max 1 (min (base_thickness + rt.1) 8)
      let seg : StochSeg := (((round x, round y), (round x2, round y2)), cpick.1, thickness)
      let r3 := R.uniform (6 / 10) (8 / 10) rt.2
      let new_length := actual_length * r3.1
      let branch_probability : ℝ := min (9 / 10) (5 / 10 + ((d + 1 : ℕ) : ℝ) * (1 / 10))
      let max_branches : ℕ := if 6 < d + 1 then 3 else 2
      let rp1 := R.rand r3.2
      let step1 : List StochSeg × G × ℕ :=
        if ((rp1.1 : ℝ)) < branch_probability then
          let ra := R.uniform 15 40 rp1.2
          let rec1 := draw_tree_stochastic_go R d x2 y2 (actual_angle + ra.1) new_length
            randomness seed (stoch_entry_state R d seed ra.2)
          (rec1.1, rec1.2, 1)
        else ([], rp1.2, 0)
      let rp2 := R.rand step1.2.1
      let step2 : List StochSeg × G × ℕ :=
        if ((rp2.1 : ℝ)) < branch_probability then
          let ra := R.uniform 15 40 rp2.2
          let rec2 := draw_tree_stochastic_go R d x2 y2 (actual_angle - ra.1) new_length
            randomness seed (stoch_entry_state R d seed ra.2)
          (rec2.1, rec2.2, 1)
        else ([], rp2.2, 0)
      let branches_created := step1.2.2 + step2.2.2
      if 2 < d + 1 ∧ branches_created < max_branches then
        let rp3 := R.rand step2.2.1
        if ((rp3.1 : ℝ)) < 3 / 10 then
          let ra := R.uniform (-10) 10 rp3.2
          let rec3 := draw_tree_stochastic_go R d x2 y2 (actual_angle + ra.1)
            (new_length * (9 / 10)) randomness seed (stoch_entry_state R d seed ra.2)
          (seg :: (step1.1 ++ step2.1 ++ rec3.1), rec3.2)
        else (seg :: (step1.1 ++ step2.1), rp3.2)
      else (seg :: (step1.1 ++ step2.1), step2.2.1)

/-- `draw_tree_stochastic` (`arbol.py` lines 257-344): the entry reseed
followed by the body. -/
noncomputable def draw_tree_stochastic {G : Type} (R : PyRandom G)
    (depth : ℕ) (x y angle length randomness : ℝ) (seed : Option ℤ) (g0 : G) :
    List StochSeg × G :=
  draw_tree_stochastic_go R depth x y angle length randomness seed
    (stoch_entry_state R depth seed g0)

/-- `draw_tree_wind` (`arbol.py` lines 346-411): a deterministic function of
its arguments, the animation time `time_factor` included. -/
noncomputable def draw_tree_wind (depth : ℕ)
    (x y angle length wind_strength wind_direction time_factor : ℝ) : List StochSeg :=
  match depth with
  | 0 => []
  | d + 1 =>
    if length < 2 then []
    else
      let wind_sensitivity := max (1 / 10) (1 - ((d + 1 : ℕ) : ℝ) / 12)
      let wind_oscillation :=
        Real.sin (time_factor * (1 / 100) + ((d + 1 : ℕ) : ℝ) * (1 / 2)) * (1 / 2) + 1 / 2
      let wind_effect := wind_strength * wind_sensitivity * 25 * wind_oscillation
      let wind_angle := angle + wind_effect * Real.cos ((wind_direction - angle) * Real.pi / 180)
      let angle_rad := wind_angle * Real.pi / 180
      let x2 := x + Real.cos angle_rad * length
      let y2 := y - Real.sin angle_rad * length
      let thickness : ℤ := max 1 (rtrunc (((d + 1 : ℕ) : ℝ) * (8 / 10)))
      let color : ℤ × ℤ × ℤ :=
        if 4 < d + 1 then (139, 69, 19)
        else
          let wind_factor := wind_strength * wind_sensitivity
          let wind_lightness : ℤ := rtrunc (wind_factor * 40)
          (min 255 (34 + wind_lightness), min 255 (139 + wind_lightness), 34)
      let seg : StochSeg := (((round x, round y), (round x2, round y2)), color, thickness)
      let new_length := length * (72 / 100)
      let base_angle_left := 25 + wind_strength * 15
      let base_angle_right := 25 + wind_strength * 15
      seg :: (draw_tree_wind d x2 y2 (wind_angle + base_angle_left) new_length
          wind_strength wind_direction time_factor ++
        draw_tree_wind d x2 y2 (wind_angle - base_angle_right) new_length
          wind_strength wind_direction time_factor)

/-- C3: every renderer is a deterministic function of its declared inputs —
rendering the same fractal/parameter combination twice yields identical
output (Julia pixels, Koch segments, chaos-game pixels given the same
generator state, wind tree given the same time value); and the stochastic
tree with a fixed seed reproduces identical output regardless of the
incoming generator state, because it reseeds the generator on entry. -/
theorem render_determinism :
    (∀ (w h x y : ℕ) (its : ℤ) (out1 out2 : ℤ × ℤ × ℤ),
      out1 = julia_draw_pixel w h x y its → out2 = julia_draw_pixel w h x y its →
      out1 = out2) ∧
    (∀ (p1 p2 : ℝ × ℝ) (d W H : ℕ) (out1 out2 : List ((ℤ × ℤ) × (ℤ × ℤ))),
      out1 = koch_curve p1 p2 d W H → out2 = koch_curve p1 p2 d W H → out1 = out2) ∧
    (∀ (G : Type) (R : PyRandom G) (w h its : ℕ) (g : G) (out1 out2 : List (ℤ × ℤ)),
      out1 = chaos_game_pixels R w h its g → out2 = chaos_game_pixels R w h its g →
      out1 = out2) ∧
    (∀ (depth : ℕ) (x y angle length ws wd t : ℝ) (out1 out2 : List StochSeg),
      out1 = draw_tree_wind depth x y angle length ws wd t →
      out2 = draw_tree_wind depth x y angle length ws wd t → out1 = out2) ∧
    (∀ (G : Type) (R : PyRandom G) (depth : ℕ) (x y angle length randomness : ℝ)
      (s : ℤ) (g1 g2 : G),
      draw_tree_stochastic R depth x y angle length randomness (some s) g1 =
        draw_tree_stochastic R depth x y angle length randomness (some s) g2) := by
  refine ⟨?_, ?_, ?_, ?_, ?_⟩
  · intro w h x y its out1 out2 h1 h2
    rw [h1, h2]
  · intro p1 p2 d W H out1 out2 h1 h2
    rw [h1, h2]
  · intro G R w h its g out1 out2 h1 h2
    rw [h1, h2]
  · intro depth x y angle length ws wd t out1 out2 h1 h2
    rw [h1, h2]
  · intro G R depth x y angle length randomness s g1 g2
    rfl

/-- Witness for C3: both determinism hypotheses discharged at concrete
inputs, and the stochastic tree at seed `42` with the one-point generator
state. -/
theorem render_determinism_witness :
    julia_draw_pixel 2 2 1 1 10 = julia_draw_pixel 2 2 1 1 10 ∧
    koch_curve ((0 : ℝ), 100) (300, 100) 1 400 400 =
      koch_curve ((0 : ℝ), 100) (300, 100) 1 400 400 ∧
    chaos_game_pixels zeroRandom 300 300 30 () = chaos_game_pixels zeroRandom 300 300 30 () ∧
    draw_tree_wind 3 300 540 90 90 (1 / 2) 45 0 = draw_tree_wind 3 300 540 90 90 (1 / 2) 45 0 ∧
    draw_tree_stochastic zeroRandom 3 300 540 90 90 (1 / 4) (some 42) () =
      draw_tree_stochastic zeroRandom 3 300 540 90 90 (1 / 4) (some 42) () :=
  ⟨render_determinism.1 2 2 1 1 10 _ _ rfl rfl,
   render_determinism.2.1 ((0 : ℝ), 100) (300, 100) 1 400 400 _ _ rfl rfl,
   render_determinism.2.2.1 Unit zeroRandom 300 300 30 () _ _ rfl rfl,
   render_determinism.2.2.2.1 3 300 540 90 90 (1 / 2) 45 0 _ _ rfl rfl,
   render_determinism.2.2.2.2 Unit zeroRandom 3 300 540 90 90 (1 / 4) 42 () ()⟩

end FractalesVisualizador
